import Mathlib

attribute [local semireducible] Rat.add Rat.mul Rat.sub Rat.inv

set_option maxRecDepth 1000000

set_option maxHeartbeats 1000000

/-!
Shallow embedding of the mol triangulation engine
(src/triangulate/earclipping.rs, src/math/vec3.rs, src/math/mat3.rs,
src/lib.rs) and proofs about it.

Modelling conventions:
* f32 values are modelled as exact rationals; every comparison and the
  epsilon tests of the source translate literally.
* The hardware square root used by Vec3::normalize is not a rational
  function; it is threaded through as an explicit parameter fsqrt, and
  every universally quantified theorem below holds for an arbitrary fsqrt.
  Note that in the rational model division by zero yields 0, while in f32
  it yields an infinity or NaN; the one place this matters (the
  unguarded anti-parallel case of Vec3::unit_align) is treated explicitly.
* The usize subtraction that can wrap (vertex[0] - 1 in OBJ::pos) is
  modelled with an explicit % 2 ^ 64; in-range index arithmetic on list
  indices stays in Nat.
* Rust indexing panics out of bounds; the model totalises list indexing
  with List.getD and a default element (the bounds question is settled
  separately for the position array).
* Source loops become structurally recursive functions on explicit fuel;
  each call site passes fuel that dominates the iteration count of the
  source loop (the ear scan runs at most max_index steps, the clip loop
  removes one vertex per iteration, the group cursor advances one face
  per refill).
-/

namespace Mol

/-- Machine epsilon of f32 (std::f32::EPSILON = 2 ^ -23) as an exact rational. -/
def eps32 : ℚ := 1 / 2 ^ 23

/-- The approx_eq! macro of the source: (a - b).abs() < f32::EPSILON. -/
def approxEq (a b : ℚ) : Bool := decide (|a - b| < eps32)

/-- Wrapping usize subtraction of 1, as performed by vertex[0] - 1 in
OBJ::pos when built in release mode (64-bit usize). -/
def wrapSub1 (i : ℕ) : ℕ := (i + (2 ^ 64 - 1)) % 2 ^ 64

/-- A basic 3-dimensional vector (src/math/vec3.rs). -/
structure Vec3 where
  x : ℚ
  y : ℚ
  z : ℚ
deriving DecidableEq, Repr

/-- A basic 2-dimensional vector (src/math/vec2.rs). -/
structure Vec2 where
  x : ℚ
  y : ℚ
deriving DecidableEq, Repr

/-- A 3 x 3 matrix stored row-major as nine entries, Mat3([f32; 9]) of
src/math/mat3.rs; e0 .. e8 are data[0] .. data[8]. -/
structure Mat3 where
  e0 : ℚ
  e1 : ℚ
  e2 : ℚ
  e3 : ℚ
  e4 : ℚ
  e5 : ℚ
  e6 : ℚ
  e7 : ℚ
  e8 : ℚ
deriving DecidableEq, Repr

/-- Matrix times vector, impl Mul of src/math/mat3.rs. -/
def Mat3.mulVec (m : Mat3) (v : Vec3) : Vec3 :=
  { x := v.x * m.e0 + v.y * m.e1 + v.z * m.e2
    y := v.x * m.e3 + v.y * m.e4 + v.z * m.e5
    z := v.x * m.e6 + v.y * m.e7 + v.z * m.e8 }

/-- Vec3::UNIT_Y. -/
def Vec3.UNIT_Y : Vec3 := { x := 0, y := 1, z := 0 }

/-- Vec3::dot. -/
def Vec3.dot (a b : Vec3) : ℚ := a.x * b.x + a.y * b.y + a.z * b.z

/-- Vec3::squared_magnitude. -/
def Vec3.squared_magnitude (v : Vec3) : ℚ := v.dot v

/-- Vec3::normalize; the source mutates in place, the model returns the
updated vector.  fsqrt stands for the f32 square root. -/
def Vec3.normalize (fsqrt : ℚ → ℚ) (v : Vec3) : Vec3 :=
  let mag := v.squared_magnitude
  if mag = 0 then v
  else
    let m := fsqrt mag
    { x := v.x / m, y := v.y / m, z := v.z / m }

/-- Vec3::cross, transcribed verbatim from the source.  Note the y
component multiplies other.z where the mathematical cross product has
other.x; the transcription keeps that behaviour. -/
def Vec3.cross (a b : Vec3) : Vec3 :=
  { x := a.y * b.z - a.z * b.y
    y := a.z * b.z - a.x * b.z
    z := a.x * b.y - a.y * b.x }

/-- The mathematical cross product, as the specification states it:
(a.y b.z - a.z b.y, a.z b.x - a.x b.z, a.x b.y - a.y b.x).  Used only to
compare Vec3.cross against the spec. -/
def crossSpec (a b : Vec3) : Vec3 :=
  { x := a.y * b.z - a.z * b.y
    y := a.z * b.x - a.x * b.z
    z := a.x * b.y - a.y * b.x }

/-- The divisor 1 + c of the k = 1 / (1 + c) computation inside
Vec3::unit_align, where c is the dot product of the two inputs. -/
def unitAlignDivisor (u1 u2 : Vec3) : ℚ := 1 + u1.dot u2

/-- Vec3::unit_align: Rodrigues rotation matrix built from the cross and
dot products of the two inputs, with no special case for the
anti-parallel configuration (1 + c = 0).  In the rational model that
division by zero yields k = 0; in f32 it yields k = inf and NaN entries. -/
def Vec3.unit_align (u1 u2 : Vec3) : Mat3 :=
  let w := u1.cross u2
  let c := u1.dot u2
  let k := 1 / (1 + c)
  { e0 := (w.x * w.x * k) + c
    e1 := (w.y * w.x * k) - w.z
    e2 := (w.z * w.x * k) + w.y
    e3 := (w.x * w.y * k) + w.z
    e4 := (w.y * w.y * k) + c
    e5 := (w.z * w.y * k) - w.x
    e6 := (w.x * w.z * k) - w.y
    e7 := (w.y * w.z * k) + w.x
    e8 := (w.z * w.z * k) + c }

/-- A vertex reference: [usize; 3] of position, texcoord and normal
indices (1-based, 0 meaning absent for the last two). -/
abbrev Vertex := ℕ × ℕ × ℕ

/-- Default vertex used to totalise list indexing (Rust would panic). -/
def defaultVertex : Vertex := (0, 0, 0)

/-- A face of an object (src/lib.rs). -/
inductive Face where
  | Tri : Vertex → Vertex → Vertex → Face
  | Quad : Vertex → Vertex → Vertex → Vertex → Face
  | NGon : List Vertex → Face
deriving DecidableEq, Repr

/-- The vertex list of a face, as produced by the match in
FaceTriangulator::new (to_vec / clone). ­-/
def Face.toVec : Face → List Vertex
  | .Tri a b c => [a, b, c]
  | .Quad a b c d => [a, b, c, d]
  | .NGon vs => vs

/-- A group within an object (src/lib.rs). -/
structure Group where
  name : String
  faces : List Face
  material : Option ℕ
deriving DecidableEq, Repr

/-- An object within an OBJ (src/lib.rs). -/
structure Object where
  name : String
  groups : List Group
deriving DecidableEq, Repr

/-- The content of an OBJ file (src/lib.rs); materials carry no data the
triangulator reads and are omitted. -/
structure OBJ where
  positions : List Vec3
  normals : List Vec3
  uvs : List Vec2
  objects : List Object
deriving DecidableEq, Repr

/-- The default Vec3 used to totalise position-array indexing. -/
def defaultVec3 : Vec3 := { x := 0, y := 0, z := 0 }

/-- OBJ::pos: self.positions[vertex[0] - 1], with the usize subtraction
modelled as a 64-bit wrap and the indexing totalised by List.getD. -/
def OBJ.pos (o : OBJ) (v : Vertex) : Vec3 :=
  o.positions.getD (wrapSub1 v.1) defaultVec3

/-- A projected 2-dimensional point (struct Point of earclipping.rs). -/
structure Point where
  x : ℚ
  y : ℚ
deriving DecidableEq, Repr

/-- OBJ::point: project a vertex with the flattening matrix, keeping the
x and z coordinates of the transformed position. -/
def OBJ.point (o : OBJ) (v : Vertex) (tf : Mat3) : Point :=
  let w := tf.mulVec (o.pos v)
  { x := w.x, y := w.z }

/-- false = clockwise, true = counter-clockwise (type Winding). -/
abbrev Winding := Bool

/-- struct Triangle([Point; 3]). -/
structure Triangle where
  a : Point
  b : Point
  c : Point
deriving DecidableEq, Repr

/-- The three corner points, self.0.iter() of the source. -/
def Triangle.corners (t : Triangle) : List Point := [t.a, t.b, t.c]

/-- Triangle::contains: barycentric sign test with the epsilon-tolerant
degenerate case treated as containment. -/
def Triangle.contains (t : Triangle) (p : Point) : Bool :=
  let a := t.a
  let b := t.b
  let c := t.c
  let det := (b.y - c.y) * (a.x - c.x) + (c.x - b.x) * (a.y - c.y)
  if approxEq det 0 then true
  else
    let invDet := 1 / det
    let l1 := invDet * ((b.y - c.y) * (p.x - c.x) + (c.x - b.x) * (p.y - c.y))
    if l1 < 0 then false
    else
      let l2 := invDet * ((c.y - a.y) * (p.x - c.x) + (a.x - c.x) * (p.y - c.y))
      if l2 < 0 then false
      else decide (l1 + l2 < 1)

/-- Triangle::winding: sign of twice the signed area. -/
def Triangle.winding (t : Triangle) : Winding :=
  decide ((t.b.x - t.a.x) * (t.c.y - t.a.y) - (t.c.x - t.a.x) * (t.b.y - t.a.y) > 0)

/-- Errors of the ear-clipping module. -/
inductive Error where
  | TooFewVertices
  | NoEarFound
  | NoValidFacesFound
  | NoValidGroupsFound
  | NoValidObjectsFound
deriving DecidableEq, Repr

/-- A triangle of vertex references, type Tri = [Vertex; 3]. -/
abbrev Tri := Vertex × Vertex × Vertex

/-- type Triangulation = Vec of Tri. -/
abbrev Triangulation := List Tri

/-- The cond! wrap for the predecessor index: ear - 1, or max_index at 0. -/
def candPrev (maxIndex ear : ℕ) : ℕ := if ear > 0 then ear - 1 else maxIndex

/-- The cond! wrap for the successor index: ear + 1, or 0 at max_index. -/
def candNext (maxIndex ear : ℕ) : ℕ := if ear < maxIndex then ear + 1 else 0

/-- The projected candidate triangle (prev, ear, next), the Triangle
built identically at the scan site and at the emit site of the source. -/
def candTri (obj : OBJ) (tf : Mat3) (polygon : List Vertex) (maxIndex ear : ℕ) : Triangle :=
  { a := obj.point (polygon.getD (candPrev maxIndex ear) defaultVertex) tf
    b := obj.point (polygon.getD ear defaultVertex) tf
    c := obj.point (polygon.getD (candNext maxIndex ear) defaultVertex) tf }

/-- The emitted triangle of un-projected vertex references at an accepted
ear, [polygon[prev], polygon[ear], polygon[next]] of the source. -/
def emitTri (polygon : List Vertex) (maxIndex ear : ℕ) : Tri :=
  (polygon.getD (candPrev maxIndex ear) defaultVertex,
   polygon.getD ear defaultVertex,
   polygon.getD (candNext maxIndex ear) defaultVertex)

/-- One pass of the find_ear loop.  In the source the cursor starts at
usize::MAX and wraps to 0 on the first increment, then the loop exits
with failure as soon as ear >= max_index; here ear counts up from 0 and
fuel = max_index - ear counts the candidates still allowed, so fuel 0 is
exactly the ear >= max_index exit.  Returns the accepted ear index (or
none) together with the reflex_indices list built during the pass. -/
def findEarGo (obj : OBJ) (tf : Mat3) (pw : Winding) (polygon : List Vertex) (maxIndex : ℕ) :
    ℕ → ℕ → List ℕ → Option ℕ × List ℕ
  | _, 0, reflex => (none, reflex)
  | ear, fuel + 1, reflex =>
    let prev := candPrev maxIndex ear
    let next := candNext maxIndex ear
    let tri := candTri obj tf polygon maxIndex ear
    if tri.winding != pw then
      findEarGo obj tf pw polygon maxIndex (ear + 1) fuel (reflex ++ [ear])
    else if reflex.any fun j =>
        decide (j ≠ prev) && decide (j ≠ next) &&
          tri.contains (obj.point (polygon.getD j defaultVertex) tf) then
      findEarGo obj tf pw polygon maxIndex (ear + 1) fuel reflex
    else if ((polygon.drop (ear + 1)).map fun v => obj.point v tf).any fun point =>
        !(tri.corners.any fun corner => decide (corner = point)) && tri.contains point then
      findEarGo obj tf pw polygon maxIndex (ear + 1) fuel reflex
    else
      (some ear, reflex)

/-- A full find_ear pass over a cleared reflex list, scanning candidates
0, 1, ... and failing once max_index = polygon.len() - 1 candidates have
been rejected. -/
def findEar (obj : OBJ) (tf : Mat3) (pw : Winding) (polygon : List Vertex) :
    Option ℕ × List ℕ :=
  findEarGo obj tf pw polygon (polygon.length - 1) 0 (polygon.length - 1) []

/-- The leftmost-vertex search of polygon_winding: fold over the
enumerated polygon keeping the index and point of the best vertex so
far (strictly smaller x, or x equal within epsilon and strictly smaller
y), starting from index 0 and the point of polygon[0]. -/
def leftmostIndex (polygon : List Vertex) (obj : OBJ) (tf : Mat3) : ℕ :=
  (polygon.enum.foldl
    (fun (acc : ℕ × Point) (iv : ℕ × Vertex) =>
      let point := obj.point iv.2 tf
      if decide (point.x < acc.2.x) ||
          (approxEq point.x acc.2.x && decide (point.y < acc.2.y)) then (iv.1, point)
      else acc)
    (0, obj.point (polygon.headD defaultVertex) tf)).1

/-- polygon_winding of the source: the winding of the projected corner
triangle at the leftmost vertex. -/
def polygon_winding (polygon : List Vertex) (obj : OBJ) (tf : Mat3) : Winding :=
  (candTri obj tf polygon (polygon.length - 1) (leftmostIndex polygon obj tf)).winding

/-- The Newell accumulation loop of fit_plane_normal, threading the
previous position exactly as the source does. -/
def newellGo (obj : OBJ) : Vec3 → Vec3 → List Vertex → Vec3
  | normal, _, [] => normal
  | normal, prev, v :: rest =>
    let curr := obj.pos v
    newellGo obj
      { x := normal.x + (prev.z + curr.z) * (prev.y - curr.y)
        y := normal.y + (prev.x + curr.x) * (prev.z - curr.z)
        z := normal.z + (prev.y + curr.y) * (prev.x - curr.x) }
      curr rest

/-- fit_plane_normal: Newell accumulation seeded with the last vertex as
prev, then normalized.  The source indexes vertices[len - 1], which
panics on an empty slice; the model totalises with getLastD (every call
site passes at least 3 vertices). -/
def fit_plane_normal (fsqrt : ℚ → ℚ) (obj : OBJ) (vertices : List Vertex) : Vec3 :=
  (newellGo obj { x := 0, y := 0, z := 0 }
    (obj.pos (vertices.getLastD defaultVertex)) vertices).normalize fsqrt

/-- The flattening matrix: unit_align of the fitted normal onto UNIT_Y,
as computed in from_obj_polygon and in triangulate. -/
def flattenTf (fsqrt : ℚ → ℚ) (obj : OBJ) (polygon : List Vertex) : Mat3 :=
  Vec3.unit_align (fit_plane_normal fsqrt obj polygon) Vec3.UNIT_Y

/-- struct FaceTriangulator, with the borrowed OBJ held by value. -/
structure FaceTriangulator where
  polygon : List Vertex
  obj : OBJ
  polygon_winding : Winding
  reflex_indices : List ℕ
  tf_flatten : Mat3
deriving DecidableEq, Repr

/-- FaceTriangulator::from_obj_polygon. -/
def FaceTriangulator.from_obj_polygon (fsqrt : ℚ → ℚ) (obj : OBJ) (polygon : List Vertex) :
    Except Error FaceTriangulator :=
  if polygon.length < 3 then .error .TooFewVertices
  else
    let tf := flattenTf fsqrt obj polygon
    .ok { polygon_winding := Mol.polygon_winding polygon obj tf
          reflex_indices := []
          polygon := polygon
          obj := obj
          tf_flatten := tf }

/-- FaceTriangulator::new. -/
def FaceTriangulator.new (fsqrt : ℚ → ℚ) (obj : OBJ) (face : Face) :
    Except Error FaceTriangulator :=
  FaceTriangulator.from_obj_polygon fsqrt obj face.toVec

/-- Iterator::next of FaceTriangulator.  The source mutates self and
returns Option; the model returns the option and the updated state.
On scan failure the working polygon is cleared and the iterator yields
none; on success the emitted triangle is the candidate triangle of the
accepted ear and that ear is removed. -/
def FaceTriangulator.next (s : FaceTriangulator) : Option Tri × FaceTriangulator :=
  if s.polygon.length < 3 then (none, s)
  else
    let maxIndex := s.polygon.length - 1
    match findEar s.obj s.tf_flatten s.polygon_winding s.polygon with
    | (none, r) => (none, { s with polygon := [], reflex_indices := r })
    | (some ear, r) =>
      (some (emitTri s.polygon maxIndex ear),
       { s with polygon := s.polygon.eraseIdx ear, reflex_indices := r })

/-- The while-loop of the batch function triangulate: one triangle per
pass while at least 3 vertices remain.  The source pushes each triangle
before looping; consing before the recursive result emits the same list.
Fuel dominates the iteration count because every pass removes exactly
one vertex; triangulate passes the initial polygon length. -/
def earClipGo (obj : OBJ) (tf : Mat3) (pw : Winding) :
    ℕ → List Vertex → Except Error (List Tri)
  | 0, _ => .ok []
  | fuel + 1, polygon =>
    if polygon.length < 3 then .ok []
    else
      let maxIndex := polygon.length - 1
      match findEar obj tf pw polygon with
      | (none, _) => .error .NoEarFound
      | (some ear, _) =>
        match earClipGo obj tf pw fuel (polygon.eraseIdx ear) with
        | .error e => .error e
        | .ok rest => .ok (emitTri polygon maxIndex ear :: rest)

/-- The batch function triangulate of earclipping.rs. -/
def triangulate (fsqrt : ℚ → ℚ) (polygon : List Vertex) (obj : OBJ) :
    Except Error Triangulation :=
  if polygon.length ≤ 2 then .error .TooFewVertices
  else if polygon.length = 3 then
    .ok [(polygon.getD 0 defaultVertex, polygon.getD 1 defaultVertex,
          polygon.getD 2 defaultVertex)]
  else
    let tf := flattenTf fsqrt obj polygon
    let pw := polygon_winding polygon obj tf
    earClipGo obj tf pw polygon.length polygon

/-- struct GroupTriangulator. -/
structure GroupTriangulator where
  obj : OBJ
  group : Group
  face_index : ℕ
  triangulator : FaceTriangulator
deriving DecidableEq, Repr

/-- The search for the first face (at running index i) on which a
FaceTriangulator can be constructed, as in GroupTriangulator::new and in
the refill loop of the iterator macro. -/
def findFirstFrom (fsqrt : ℚ → ℚ) (obj : OBJ) : ℕ → List Face → Option (ℕ × FaceTriangulator)
  | _, [] => none
  | i, f :: rest =>
    match FaceTriangulator.new fsqrt obj f with
    | .ok t => some (i, t)
    | .error _ => findFirstFrom fsqrt obj (i + 1) rest

/-- GroupTriangulator::new. -/
def GroupTriangulator.new (fsqrt : ℚ → ℚ) (obj : OBJ) (group : Group) :
    Except Error GroupTriangulator :=
  match findFirstFrom fsqrt obj 0 group.faces with
  | some (i, t) => .ok { obj := obj, group := group, face_index := i, triangulator := t }
  | none => .error .NoValidFacesFound

/-- The inner refill loop of the make_triangulation_iterator macro:
advance face_index past the current face to the next face on which a
FaceTriangulator constructs, or to faces.len() when none does. -/
def GroupTriangulator.refill (fsqrt : ℚ → ℚ) (s : GroupTriangulator) : GroupTriangulator :=
  match findFirstFrom fsqrt s.obj (s.face_index + 1) (s.group.faces.drop (s.face_index + 1)) with
  | some (i, t) => { s with face_index := i, triangulator := t }
  | none => { s with face_index := s.group.faces.length }

/-- The outer loop of the iterator generated by
make_triangulation_iterator for GroupTriangulator.  Every non-returning
pass strictly increases face_index and the loop returns none as soon as
face_index reaches faces.len(), so fuel faces.len() + 1 dominates. -/
def groupNextGo (fsqrt : ℚ → ℚ) : ℕ → GroupTriangulator → Option Tri × GroupTriangulator
  | 0, s => (none, s)
  | fuel + 1, s =>
    if s.group.faces.length ≤ s.face_index then (none, s)
    else
      match s.triangulator.next with
      | (some t, ft) => (some t, { s with triangulator := ft })
      | (none, ft) =>
        groupNextGo fsqrt fuel (GroupTriangulator.refill fsqrt { s with triangulator := ft })

/-- Iterator::next of GroupTriangulator. -/
def GroupTriangulator.next (fsqrt : ℚ → ℚ) (s : GroupTriangulator) :
    Option Tri × GroupTriangulator :=
  groupNextGo fsqrt (s.group.faces.length + 1) s

/-- Collect the triangles a GroupTriangulator yields, with fuel bounding
the number of pulls. -/
def groupCollect (fsqrt : ℚ → ℚ) : ℕ → GroupTriangulator → List Tri
  | 0, _ => []
  | fuel + 1, s =>
    match GroupTriangulator.next fsqrt s with
    | (some t, s1) => t :: groupCollect fsqrt fuel s1
    | (none, _) => []

/-- Modelled from the spec: one ear-search pass that scans candidate
indices in the order of the queue argument (the polygon indices starting
immediately after the previously accepted ear, wrapping), with a budget
of polygon length - 1 candidates; the three acceptance checks and the
reflex bookkeeping are those of the engine, with the not-yet-processed
vertices of the third check being the indices still in the queue. -/
def findEarSpecGo (obj : OBJ) (tf : Mat3) (pw : Winding) (polygon : List Vertex) (maxIndex : ℕ) :
    List ℕ → ℕ → List ℕ → Option ℕ × List ℕ
  | [], _, reflex => (none, reflex)
  | _, 0, reflex => (none, reflex)
  | ear :: rest, budget + 1, reflex =>
    let prev := candPrev maxIndex ear
    let next := candNext maxIndex ear
    let tri := candTri obj tf polygon maxIndex ear
    if tri.winding != pw then
      findEarSpecGo obj tf pw polygon maxIndex rest budget (reflex ++ [ear])
    else if reflex.any fun j =>
        decide (j ≠ prev) && decide (j ≠ next) &&
          tri.contains (obj.point (polygon.getD j defaultVertex) tf) then
      findEarSpecGo obj tf pw polygon maxIndex rest budget reflex
    else if (rest.map fun j => obj.point (polygon.getD j defaultVertex) tf).any fun point =>
        !(tri.corners.any fun corner => decide (corner = point)) && tri.contains point then
      findEarSpecGo obj tf pw polygon maxIndex rest budget reflex
    else
      (some ear, reflex)

/-- Modelled from the spec: a full ear-search pass starting at the index
start (the slot immediately after the previously accepted ear) and
wrapping around the polygon, examining at most polygon length - 1
candidates. -/
def findEarSpec (obj : OBJ) (tf : Mat3) (pw : Winding) (polygon : List Vertex) (start : ℕ) :
    Option ℕ × List ℕ :=
  let n := polygon.length
  findEarSpecGo obj tf pw polygon (n - 1)
    ((List.range n).map fun k => (start + k) % n) (n - 1) []

/-- Modelled from the spec: the clip loop driven by the wrapping scan;
after accepting and removing ear e the next pass starts at the slot that
now carries the vertex that followed e (index e modulo the shrunk
length). -/
def earClipSpecGo (obj : OBJ) (tf : Mat3) (pw : Winding) :
    ℕ → ℕ → List Vertex → Except Error (List Tri)
  | 0, _, _ => .ok []
  | fuel + 1, start, polygon =>
    if polygon.length < 3 then .ok []
    else
      let maxIndex := polygon.length - 1
      match findEarSpec obj tf pw polygon start with
      | (none, _) => .error .NoEarFound
      | (some ear, _) =>
        let shrunk := polygon.eraseIdx ear
        let start1 := if shrunk.length = 0 then 0 else ear % shrunk.length
        match earClipSpecGo obj tf pw fuel start1 shrunk with
        | .error e => .error e
        | .ok rest => .ok (emitTri polygon maxIndex ear :: rest)

/-- Modelled from the spec: the batch triangulation whose ear scan
resumes after the previously accepted ear index and wraps, as claim C3
describes the engine; identical to triangulate in every other respect. -/
def triangulateSpec (fsqrt : ℚ → ℚ) (polygon : List Vertex) (obj : OBJ) :
    Except Error Triangulation :=
  if polygon.length ≤ 2 then .error .TooFewVertices
  else if polygon.length = 3 then
    .ok [(polygon.getD 0 defaultVertex, polygon.getD 1 defaultVertex,
          polygon.getD 2 defaultVertex)]
  else
    let tf := flattenTf fsqrt obj polygon
    let pw := polygon_winding polygon obj tf
    earClipSpecGo obj tf pw polygon.length 0 polygon

/-- A concrete stand-in for the fsqrt parameter, used only to
instantiate theorems at concrete inputs.  Every universally quantified
theorem of this file holds for an arbitrary fsqrt, and the engine's
branch decisions (winding signs, leftmost vertex, containment) are
invariant under the positive rescaling of the projected points that a
different square-root value induces, so the constant-one function is a
valid instantiation for the concrete runs below. -/
def oneSqrt : ℚ → ℚ := fun _ => 1

/-- The projection of a triangle of vertex references by a flattening
matrix, corner by corner. -/
def projTriangle (obj : OBJ) (tf : Mat3) (t : Tri) : Triangle :=
  { a := obj.point t.1 tf, b := obj.point t.2.1 tf, c := obj.point t.2.2 tf }

/-- Projecting an emitted triangle gives back the candidate triangle the
scan examined, because the scan site and the emit site build prev, ear
and next identically. -/
theorem projTriangle_emitTri (obj : OBJ) (tf : Mat3) (polygon : List Vertex)
    (maxIndex ear : ℕ) :
    projTriangle obj tf (emitTri polygon maxIndex ear) = candTri obj tf polygon maxIndex ear :=
  rfl

/-- An accepted ear lies between the scan cursor and the cursor plus the
remaining fuel. -/
theorem findEarGo_some_bound (obj : OBJ) (tf : Mat3) (pw : Winding) (polygon : List Vertex)
    (maxIndex : ℕ) :
    ∀ (fuel ear : ℕ) (reflex r : List ℕ) (e : ℕ),
      findEarGo obj tf pw polygon maxIndex ear fuel reflex = (some e, r) →
      ear ≤ e ∧ e < ear + fuel := by
  intro fuel
  induction fuel with
  | zero => intro ear reflex r e h; simp [findEarGo] at h
  | succ n ih =>
    intro ear reflex r e h
    simp only [findEarGo] at h
    split at h
    · have := ih (ear + 1) _ _ _ h
      omega
    · split at h
      · have := ih (ear + 1) _ _ _ h
        omega
      · split at h
        · have := ih (ear + 1) _ _ _ h
          omega
        · simp only [Prod.mk.injEq, Option.some.injEq] at h
          omega

/-- An accepted ear of a full pass is strictly below max_index: at most
polygon length - 1 candidates are ever examined and the last polygon
index is never accepted. -/
theorem findEar_some_lt (obj : OBJ) (tf : Mat3) (pw : Winding) (polygon : List Vertex)
    (e : ℕ) (r : List ℕ) (h : findEar obj tf pw polygon = (some e, r)) :
    e < polygon.length - 1 := by
  have := findEarGo_some_bound obj tf pw polygon (polygon.length - 1)
    (polygon.length - 1) 0 [] r e h
  omega

/-- The projected candidate triangle of an accepted ear has the polygon
winding: the scan only accepts candidates that pass the winding test. -/
theorem findEarGo_some_winding (obj : OBJ) (tf : Mat3) (pw : Winding) (polygon : List Vertex)
    (maxIndex : ℕ) :
    ∀ (fuel ear : ℕ) (reflex r : List ℕ) (e : ℕ),
      findEarGo obj tf pw polygon maxIndex ear fuel reflex = (some e, r) →
      (candTri obj tf polygon maxIndex e).winding = pw := by
  intro fuel
  induction fuel with
  | zero => intro ear reflex r e h; simp [findEarGo] at h
  | succ n ih =>
    intro ear reflex r e h
    simp only [findEarGo] at h
    split at h
    · exact ih (ear + 1) _ _ _ h
    · rename_i hbne
      split at h
      · exact ih (ear + 1) _ _ _ h
      · split at h
        · exact ih (ear + 1) _ _ _ h
        · simp only [Prod.mk.injEq, Option.some.injEq] at h
          simp only [bne_iff_ne, ne_eq, not_not] at hbne
          rw [← h.1]
          exact hbne

/-- The winding property of a full pass. -/
theorem findEar_some_winding (obj : OBJ) (tf : Mat3) (pw : Winding) (polygon : List Vertex)
    (e : ℕ) (r : List ℕ) (h : findEar obj tf pw polygon = (some e, r)) :
    (candTri obj tf polygon (polygon.length - 1) e).winding = pw :=
  findEarGo_some_winding obj tf pw polygon (polygon.length - 1) (polygon.length - 1) 0 [] r e h

/-- When the clip loop succeeds with fuel dominating the polygon length
it has emitted exactly length - 2 triangles. -/
theorem earClipGo_ok_length (obj : OBJ) (tf : Mat3) (pw : Winding) :
    ∀ (fuel : ℕ) (polygon : List Vertex) (ts : List Tri),
      polygon.length ≤ fuel → earClipGo obj tf pw fuel polygon = .ok ts →
      ts.length = polygon.length - 2 := by
  intro fuel
  induction fuel with
  | zero =>
    intro polygon ts hle h
    simp only [earClipGo, Except.ok.injEq] at h
    subst h
    simp
    omega
  | succ n ih =>
    intro polygon ts hle h
    simp only [earClipGo] at h
    split at h
    · rename_i hlt
      simp only [Except.ok.injEq] at h
      subst h
      simp
      omega
    · rename_i hge
      split at h
      · exact absurd h (by simp)
      · rename_i ear r heq
        split at h
        · exact absurd h (by simp)
        · rename_i rest hrest
          simp only [Except.ok.injEq] at h
          subst h
          have hlt : ear < polygon.length - 1 := findEar_some_lt obj tf pw polygon ear r heq
          have hlen : (polygon.eraseIdx ear).length = polygon.length - 1 := by
            rw [List.length_eraseIdx]
            simp only [if_pos (by omega : ear < polygon.length)]
          have := ih (polygon.eraseIdx ear) rest (by omega) hrest
          simp only [List.length_cons, this, hlen]
          omega

/-- The clip loop never reports TooFewVertices. -/
theorem earClipGo_ne_tooFew (obj : OBJ) (tf : Mat3) (pw : Winding) :
    ∀ (fuel : ℕ) (polygon : List Vertex),
      earClipGo obj tf pw fuel polygon ≠ .error .TooFewVertices := by
  intro fuel
  induction fuel with
  | zero => intro polygon h; simp [earClipGo] at h
  | succ n ih =>
    intro polygon h
    simp only [earClipGo] at h
    split at h
    · simp at h
    · split at h
      · simp at h
      · split at h
        · rename_i e hrec
          simp only [Except.error.injEq] at h
          exact ih _ (by rw [hrec, h])
        · simp at h

/-- Every triangle the clip loop emits projects to a triangle whose
winding is the fixed polygon winding. -/
theorem earClipGo_ok_winding (obj : OBJ) (tf : Mat3) (pw : Winding) :
    ∀ (fuel : ℕ) (polygon : List Vertex) (ts : List Tri),
      earClipGo obj tf pw fuel polygon = .ok ts →
      ∀ t ∈ ts, (projTriangle obj tf t).winding = pw := by
  intro fuel
  induction fuel with
  | zero =>
    intro polygon ts h t ht
    simp only [earClipGo, Except.ok.injEq] at h
    subst h
    simp at ht
  | succ n ih =>
    intro polygon ts h t ht
    simp only [earClipGo] at h
    split at h
    · simp only [Except.ok.injEq] at h
      subst h
      simp at ht
    · split at h
      · simp at h
      · rename_i ear r heq
        split at h
        · simp at h
        · rename_i rest hrest
          simp only [Except.ok.injEq] at h
          subst h
          rcases List.mem_cons.mp ht with rfl | hmem
          · rw [projTriangle_emitTri]
            exact findEar_some_winding obj tf pw polygon ear r heq
          · exact ih _ rest hrest t hmem

/-- Cyclic rotation preserves the winding of a projected triangle: the
doubled signed area is a cyclic invariant. -/
theorem winding_rot (a b c : Point) :
    Triangle.winding { a := c, b := a, c := b } = Triangle.winding { a := a, b := b, c := c } := by
  simp only [Triangle.winding]
  have h : (a.x - c.x) * (b.y - c.y) - (b.x - c.x) * (a.y - c.y)
      = (b.x - a.x) * (c.y - a.y) - (c.x - a.x) * (b.y - a.y) := by ring
  rw [h]

/-- Invariant preservation along a fold. -/
theorem foldl_inv {σ α : Type} (f : σ → α → σ) (P : σ → Prop) :
    ∀ (l : List α) (init : σ), P init → (∀ s a, a ∈ l → P s → P (f s a)) →
      P (l.foldl f init) := by
  intro l
  induction l with
  | nil => intro init h _; exact h
  | cons x xs ih =>
    intro init h hstep
    exact ih _ (hstep _ _ (by simp) h) fun s a ha hp => hstep s a (by simp [ha]) hp

/-- The leftmost-vertex search returns an index of the polygon. -/
theorem leftmostIndex_lt (polygon : List Vertex) (obj : OBJ) (tf : Mat3)
    (h : polygon ≠ []) : leftmostIndex polygon obj tf < polygon.length := by
  unfold leftmostIndex
  apply foldl_inv _ (fun acc : ℕ × Point => acc.1 < polygon.length)
  · simpa using List.length_pos.mpr h
  · rintro s ⟨i, v⟩ ha hp
    have hi : i < polygon.length := (List.mem_enum ha).1
    dsimp only
    split
    · exact hi
    · exact hp

/-- polygon_winding of a 3-vertex polygon is the winding of the
projected triangle in the cyclic order (previous, leftmost, next),
which by cyclic invariance always equals the winding of the rotation
(v2, v0, v1). -/
theorem polygon_winding_three (obj : OBJ) (tf : Mat3) (v0 v1 v2 : Vertex) :
    polygon_winding [v0, v1, v2] obj tf
      = Triangle.winding
          { a := obj.point v2 tf, b := obj.point v0 tf, c := obj.point v1 tf } := by
  have h3 : leftmostIndex [v0, v1, v2] obj tf < 3 := by
    simpa using leftmostIndex_lt [v0, v1, v2] obj tf (by simp)
  unfold polygon_winding
  obtain h | h | h : leftmostIndex [v0, v1, v2] obj tf = 0 ∨
      leftmostIndex [v0, v1, v2] obj tf = 1 ∨
      leftmostIndex [v0, v1, v2] obj tf = 2 := by omega
  · rw [h]
    rfl
  · rw [h]
    exact (winding_rot (obj.point v0 tf) (obj.point v1 tf) (obj.point v2 tf)).symm
  · rw [h]
    exact winding_rot (obj.point v2 tf) (obj.point v0 tf) (obj.point v1 tf)

/-- On a 3-vertex polygon whose candidate 0 passes the winding test the
scan accepts ear 0 at once: the two remaining vertices are corners of
the candidate triangle, so the containment checks cannot reject it. -/
theorem findEar_three (obj : OBJ) (tf : Mat3) (pw : Winding) (v0 v1 v2 : Vertex)
    (hw : (candTri obj tf [v0, v1, v2] 2 0).winding = pw) :
    findEar obj tf pw [v0, v1, v2] = (some 0, []) := by
  have hw2 : (Triangle.mk (obj.point v2 tf) (obj.point v0 tf) (obj.point v1 tf)).winding
      = pw := hw
  show findEarGo obj tf pw [v0, v1, v2] 2 0 2 [] = (some 0, [])
  simp [findEarGo, candTri, candPrev, candNext, Triangle.corners, hw2, List.getD]

/-- from_obj_polygon on at least 3 vertices always constructs, with the
winding flag and flattening matrix computed from the polygon. -/
theorem from_obj_polygon_ok (fsqrt : ℚ → ℚ) (obj : OBJ) (polygon : List Vertex)
    (h3 : 3 ≤ polygon.length) :
    FaceTriangulator.from_obj_polygon fsqrt obj polygon
      = .ok { polygon_winding := Mol.polygon_winding polygon obj (flattenTf fsqrt obj polygon)
              reflex_indices := []
              polygon := polygon
              obj := obj
              tf_flatten := flattenTf fsqrt obj polygon } := by
  unfold FaceTriangulator.from_obj_polygon
  rw [if_neg (by omega)]

/-- from_obj_polygon on fewer than 3 vertices fails with TooFewVertices. -/
theorem from_obj_polygon_err (fsqrt : ℚ → ℚ) (obj : OBJ) (polygon : List Vertex)
    (h : polygon.length < 3) :
    FaceTriangulator.from_obj_polygon fsqrt obj polygon = .error .TooFewVertices := by
  unfold FaceTriangulator.from_obj_polygon
  rw [if_pos h]

/-- A failing scan clears the working polygon and yields nothing. -/
theorem faceNext_scan_none (s : FaceTriangulator) (r : List ℕ)
    (h3 : 3 ≤ s.polygon.length)
    (h : findEar s.obj s.tf_flatten s.polygon_winding s.polygon = (none, r)) :
    s.next = (none, { s with polygon := [], reflex_indices := r }) := by
  unfold FaceTriangulator.next
  rw [if_neg (by omega), h]

/-- A triangulator whose polygon has fewer than 3 vertices yields
nothing and does not change. -/
theorem faceNext_short (s : FaceTriangulator) (h : s.polygon.length < 3) :
    s.next = (none, s) := by
  unfold FaceTriangulator.next
  rw [if_pos h]

/-- When the very first scan of the batch loop fails, triangulate
reports NoEarFound. -/
theorem triangulate_scan_none (fsqrt : ℚ → ℚ) (polygon : List Vertex) (obj : OBJ)
    (r : List ℕ) (h4 : 4 ≤ polygon.length)
    (h : findEar obj (flattenTf fsqrt obj polygon)
          (polygon_winding polygon obj (flattenTf fsqrt obj polygon)) polygon = (none, r)) :
    triangulate fsqrt polygon obj = .error .NoEarFound := by
  unfold triangulate
  rw [if_neg (by omega), if_neg (by omega)]
  obtain ⟨k, hk⟩ : ∃ k, polygon.length = k + 1 := ⟨polygon.length - 1, by omega⟩
  rw [hk]
  simp only [earClipGo]
  rw [if_neg (by omega), h]

/-- The single pull of a face triangulator built from a 3-vertex
polygon: it emits the rotation (v2, v0, v1) of the vertex loop, and the
following pull yields nothing. -/
theorem faceNext_three (fsqrt : ℚ → ℚ) (obj : OBJ) (v0 v1 v2 : Vertex)
    (s : FaceTriangulator)
    (h : FaceTriangulator.from_obj_polygon fsqrt obj [v0, v1, v2] = .ok s) :
    s.next = (some (v2, v0, v1), { s with polygon := [v1, v2], reflex_indices := [] })
      ∧ (s.next.2).next = (none, s.next.2) := by
  rw [from_obj_polygon_ok fsqrt obj [v0, v1, v2] (by simp)] at h
  simp only [Except.ok.injEq] at h
  subst h
  have hfe : findEar obj (flattenTf fsqrt obj [v0, v1, v2])
      (polygon_winding [v0, v1, v2] obj (flattenTf fsqrt obj [v0, v1, v2])) [v0, v1, v2]
      = (some 0, []) :=
    findEar_three obj (flattenTf fsqrt obj [v0, v1, v2]) _ v0 v1 v2
      (polygon_winding_three obj (flattenTf fsqrt obj [v0, v1, v2]) v0 v1 v2).symm
  have h1 : FaceTriangulator.next
      { polygon_winding := polygon_winding [v0, v1, v2] obj (flattenTf fsqrt obj [v0, v1, v2])
        reflex_indices := []
        polygon := [v0, v1, v2]
        obj := obj
        tf_flatten := flattenTf fsqrt obj [v0, v1, v2] }
      = (some (v2, v0, v1),
         { polygon_winding := polygon_winding [v0, v1, v2] obj (flattenTf fsqrt obj [v0, v1, v2])
           reflex_indices := []
           polygon := [v1, v2]
           obj := obj
           tf_flatten := flattenTf fsqrt obj [v0, v1, v2] }) := by
    unfold FaceTriangulator.next
    rw [if_neg (by simp)]
    simp only
    rw [hfe]
    rfl
  refine ⟨h1, ?_⟩
  rw [h1]
  exact faceNext_short _ (by simp)

/-- A triangle emitted by one pull of a face triangulator projects, by
the state's flattening matrix, to a triangle with the state's winding. -/
theorem faceNext_some_winding (s : FaceTriangulator) (t : Tri) (s1 : FaceTriangulator)
    (h : s.next = (some t, s1)) :
    (projTriangle s.obj s.tf_flatten t).winding = s.polygon_winding := by
  unfold FaceTriangulator.next at h
  split at h
  · simp at h
  · split at h
    · simp at h
    · rename_i ear r heq
      simp only [Prod.mk.injEq, Option.some.injEq] at h
      rw [← h.1, projTriangle_emitTri]
      exact findEar_some_winding s.obj s.tf_flatten s.polygon_winding s.polygon ear r heq

/-- Constructing a face triangulator either succeeds exactly when the
face has at least 3 vertices or fails with TooFewVertices. -/
theorem new_cases (fsqrt : ℚ → ℚ) (obj : OBJ) (face : Face) :
    (3 ≤ face.toVec.length ∧ ∃ s, FaceTriangulator.new fsqrt obj face = .ok s)
    ∨ (face.toVec.length < 3
        ∧ FaceTriangulator.new fsqrt obj face = .error .TooFewVertices) := by
  by_cases h : face.toVec.length < 3
  · exact Or.inr ⟨h, from_obj_polygon_err fsqrt obj face.toVec h⟩
  · exact Or.inl ⟨by omega, _, from_obj_polygon_ok fsqrt obj face.toVec (by omega)⟩

/-- The face cursor search fails exactly when every remaining face has
fewer than 3 vertices. -/
theorem findFirstFrom_none_iff (fsqrt : ℚ → ℚ) (obj : OBJ) :
    ∀ (l : List Face) (i : ℕ),
      findFirstFrom fsqrt obj i l = none ↔ ∀ f ∈ l, f.toVec.length < 3 := by
  intro l
  induction l with
  | nil => intro i; simp [findFirstFrom]
  | cons f rest ih =>
    intro i
    simp only [findFirstFrom]
    rcases new_cases fsqrt obj f with ⟨h3, s, hs⟩ | ⟨h3, hs⟩
    · rw [hs]
      simp only [List.mem_cons]
      constructor
      · intro h; exact absurd h (by simp)
      · intro h
        exact absurd (h f (Or.inl rfl)) (by omega)
    · rw [hs]
      simp only [List.mem_cons, ih rest.length]
      rw [ih (i + 1)]
      constructor
      · intro h g hg
        rcases hg with rfl | hg
        · exact h3
        · exact h g hg
      · intro h g hg
        exact h g (Or.inr hg)

/-- A successful face cursor search lands on the first startable face at
or after the search origin. -/
theorem findFirstFrom_some (fsqrt : ℚ → ℚ) (obj : OBJ) :
    ∀ (l : List Face) (i j : ℕ) (t : FaceTriangulator),
      findFirstFrom fsqrt obj i l = some (j, t) →
      i ≤ j ∧ j - i < l.length ∧ 3 ≤ (l.getD (j - i) (.NGon [])).toVec.length ∧
        ∀ k < j - i, (l.getD k (.NGon [])).toVec.length < 3 := by
  intro l
  induction l with
  | nil => intro i j t h; simp [findFirstFrom] at h
  | cons f rest ih =>
    intro i j t h
    simp only [findFirstFrom] at h
    rcases new_cases fsqrt obj f with ⟨h3, s, hs⟩ | ⟨h3, hs⟩
    · rw [hs] at h
      simp only [Option.some.injEq, Prod.mk.injEq] at h
      obtain ⟨rfl, -⟩ := h
      refine ⟨le_refl _, by simp, by simpa using h3, ?_⟩
      intro k hk
      omega
    · rw [hs] at h
      obtain ⟨hij, hlt, hge, hall⟩ := ih (i + 1) j t h
      have hj : 1 ≤ j - i := by omega
      refine ⟨by omega, by simp; omega, ?_, ?_⟩
      · have : (f :: rest).getD (j - i) (.NGon []) = rest.getD (j - i - 1) (.NGon []) := by
          obtain ⟨m, hm⟩ : ∃ m, j - i = m + 1 := ⟨j - i - 1, by omega⟩
          rw [hm]
          simp
        rw [this]
        have : j - i - 1 = j - (i + 1) := by omega
        rw [this]
        exact hge
      · intro k hk
        match k with
        | 0 => simpa using h3
        | m + 1 =>
          have : (f :: rest).getD (m + 1) (.NGon []) = rest.getD m (.NGon []) := by simp
          rw [this]
          exact hall m (by omega)

/-- GroupTriangulator::new fails with NoValidFacesFound exactly when
every face of the group has fewer than 3 vertices. -/
theorem groupNew_err_iff (fsqrt : ℚ → ℚ) (obj : OBJ) (group : Group) :
    GroupTriangulator.new fsqrt obj group = .error .NoValidFacesFound
      ↔ ∀ f ∈ group.faces, f.toVec.length < 3 := by
  unfold GroupTriangulator.new
  cases h : findFirstFrom fsqrt obj 0 group.faces with
  | none =>
    simp only []
    constructor
    · intro _
      exact (findFirstFrom_none_iff fsqrt obj group.faces 0).mp h
    · intro _
      trivial
  | some it =>
    obtain ⟨i, t⟩ := it
    simp only [reduceCtorEq]
    constructor
    · intro hfalse
      exact absurd hfalse (by simp)
    · intro hall
      have := (findFirstFrom_none_iff fsqrt obj group.faces 0).mpr hall
      rw [h] at this
      exact absurd this (by simp)

/-- A successfully constructed GroupTriangulator starts at the first
face with at least 3 vertices, skipping every earlier face. -/
theorem groupNew_ok (fsqrt : ℚ → ℚ) (obj : OBJ) (group : Group) (s : GroupTriangulator)
    (h : GroupTriangulator.new fsqrt obj group = .ok s) :
    s.face_index < group.faces.length ∧
      3 ≤ (group.faces.getD s.face_index (.NGon [])).toVec.length ∧
      ∀ k < s.face_index, (group.faces.getD k (.NGon [])).toVec.length < 3 := by
  unfold GroupTriangulator.new at h
  cases hf : findFirstFrom fsqrt obj 0 group.faces with
  | none => rw [hf] at h; simp at h
  | some it =>
    obtain ⟨i, t⟩ := it
    rw [hf] at h
    simp only [Except.ok.injEq] at h
    obtain ⟨hle, hlt, hge, hall⟩ := findFirstFrom_some fsqrt obj group.faces 0 i t hf
    subst h
    simp only [Nat.sub_zero] at hlt hge hall
    exact ⟨hlt, hge, hall⟩

/-- The disjunction of the three rejection tests of one scan candidate,
evaluated against a given reflex list: the candidate is reflex (winding
test fails), or an already-recorded reflex vertex other than its
neighbours lies inside its triangle, or a later polygon vertex that is
not one of its corner points lies inside its triangle. -/
def earRejected (obj : OBJ) (tf : Mat3) (pw : Winding) (polygon : List Vertex)
    (maxIndex : ℕ) (reflex : List ℕ) (ear : ℕ) : Bool :=
  let prev := candPrev maxIndex ear
  let next := candNext maxIndex ear
  let tri := candTri obj tf polygon maxIndex ear
  (tri.winding != pw) ||
  (reflex.any fun j =>
      decide (j ≠ prev) && decide (j ≠ next) &&
        tri.contains (obj.point (polygon.getD j defaultVertex) tf)) ||
  (((polygon.drop (ear + 1)).map fun v => obj.point v tf).any fun point =>
      !(tri.corners.any fun corner => decide (corner = point)) && tri.contains point)

/-- The reflex list the scan has accumulated after examining candidates
0 .. e - 1: exactly the candidates whose winding test failed, in order. -/
def reflexUpTo (obj : OBJ) (tf : Mat3) (pw : Winding) (polygon : List Vertex)
    (maxIndex : ℕ) : ℕ → List ℕ
  | 0 => []
  | e + 1 =>
    reflexUpTo obj tf pw polygon maxIndex e ++
      (if (candTri obj tf polygon maxIndex e).winding != pw then [e] else [])

/-- Characterisation of one scan pass: starting the cursor at ear with
the reflex list matching the candidates below ear, an accepted ear e is
the first candidate from the cursor upward that none of the three tests
rejects, and the final reflex list records the winding failures below e. -/
theorem findEarGo_char (obj : OBJ) (tf : Mat3) (pw : Winding) (polygon : List Vertex)
    (maxIndex : ℕ) :
    ∀ (fuel ear : ℕ) (r : List ℕ) (e : ℕ),
      findEarGo obj tf pw polygon maxIndex ear fuel
          (reflexUpTo obj tf pw polygon maxIndex ear) = (some e, r) →
      (∀ j, ear ≤ j → j < e →
          earRejected obj tf pw polygon maxIndex
            (reflexUpTo obj tf pw polygon maxIndex j) j = true) ∧
      earRejected obj tf pw polygon maxIndex
          (reflexUpTo obj tf pw polygon maxIndex e) e = false ∧
      r = reflexUpTo obj tf pw polygon maxIndex e := by
  intro fuel
  induction fuel with
  | zero => intro ear r e h; simp [findEarGo] at h
  | succ n ih =>
    intro ear r e h
    simp only [findEarGo] at h
    split at h
    · rename_i hc1
      have hre : reflexUpTo obj tf pw polygon maxIndex ear ++ [ear]
          = reflexUpTo obj tf pw polygon maxIndex (ear + 1) := by
        simp [reflexUpTo, hc1]
      rw [hre] at h
      obtain ⟨h1, h2, h3⟩ := ih (ear + 1) r e h
      refine ⟨?_, h2, h3⟩
      intro j hj1 hj2
      rcases eq_or_lt_of_le hj1 with rfl | hlt
      · simp [earRejected, hc1]
      · exact h1 j hlt hj2
    · rename_i hc1
      split at h
      · rename_i hc2
        have hre : reflexUpTo obj tf pw polygon maxIndex ear
            = reflexUpTo obj tf pw polygon maxIndex (ear + 1) := by
          simp [reflexUpTo, hc1]
        rw [hre] at h
        obtain ⟨h1, h2, h3⟩ := ih (ear + 1) r e h
        refine ⟨?_, h2, h3⟩
        intro j hj1 hj2
        rcases eq_or_lt_of_le hj1 with rfl | hlt
        · simp only [earRejected, hc2]
          simp
        · exact h1 j hlt hj2
      · rename_i hc2
        split at h
        · rename_i hc3
          have hre : reflexUpTo obj tf pw polygon maxIndex ear
              = reflexUpTo obj tf pw polygon maxIndex (ear + 1) := by
            simp [reflexUpTo, hc1]
          rw [hre] at h
          obtain ⟨h1, h2, h3⟩ := ih (ear + 1) r e h
          refine ⟨?_, h2, h3⟩
          intro j hj1 hj2
          rcases eq_or_lt_of_le hj1 with rfl | hlt
          · simp only [earRejected, hc3]
            simp
          · exact h1 j hlt hj2
        · rename_i hc3
          simp only [Prod.mk.injEq, Option.some.injEq] at h
          obtain ⟨rfl, rfl⟩ := h
          refine ⟨fun j hj1 hj2 => absurd hj2 (by omega), ?_, rfl⟩
          simp only [Bool.not_eq_true] at hc1 hc2 hc3
          simp only [earRejected, hc1, hc2, hc3]
          rfl

/-- Characterisation of a full pass: the accepted ear is the first
candidate from index 0 upward that the three tests do not reject. -/
theorem findEar_char (obj : OBJ) (tf : Mat3) (pw : Winding) (polygon : List Vertex)
    (e : ℕ) (r : List ℕ) (h : findEar obj tf pw polygon = (some e, r)) :
    (∀ j < e, earRejected obj tf pw polygon (polygon.length - 1)
        (reflexUpTo obj tf pw polygon (polygon.length - 1) j) j = true) ∧
    earRejected obj tf pw polygon (polygon.length - 1)
        (reflexUpTo obj tf pw polygon (polygon.length - 1) e) e = false ∧
    r = reflexUpTo obj tf pw polygon (polygon.length - 1) e := by
  have h0 : reflexUpTo obj tf pw polygon (polygon.length - 1) 0 = [] := rfl
  have hmain := findEarGo_char obj tf pw polygon (polygon.length - 1)
    (polygon.length - 1) 0 r e (by rw [h0]; exact h)
  exact ⟨fun j hj => hmain.1 j (Nat.zero_le j) hj, hmain.2.1, hmain.2.2⟩

/-- Two meshes that agree on the position of a vertex reference project
it identically. -/
theorem point_congr (obj obj2 : OBJ) (v : Vertex) (tf : Mat3)
    (h : obj.pos v = obj2.pos v) : obj.point v tf = obj2.point v tf := by
  unfold OBJ.point
  rw [h]

/-- A getD access at an in-range index is a member of the list. -/
theorem getD_mem {α : Type} {l : List α} {i : ℕ} {d : α} (h : i < l.length) :
    l.getD i d ∈ l := by
  rw [List.getD_eq_getElem l d h]
  exact List.getElem_mem h

/-- The last element picked up by getLastD of a nonempty list is a
member of the list. -/
theorem getLastD_mem {α : Type} {l : List α} {d : α} (h : l ≠ []) : l.getLastD d ∈ l := by
  rw [List.getLastD_eq_getLast?]
  cases hq : l.getLast? with
  | none => exact absurd (List.getLast?_eq_none_iff.mp hq) h
  | some a =>
    have ha : a ∈ l.getLast? := by rw [hq]; rfl
    simpa using List.mem_of_mem_getLast? ha

/-- The Newell loop reads only positions of loop members. -/
theorem newellGo_congr (obj obj2 : OBJ) :
    ∀ (l : List Vertex), (∀ v ∈ l, obj.pos v = obj2.pos v) →
      ∀ (n p : Vec3), newellGo obj n p l = newellGo obj2 n p l := by
  intro l
  induction l with
  | nil => intro _ n p; rfl
  | cons v rest ih =>
    intro h n p
    simp only [newellGo]
    rw [h v (by simp)]
    exact ih (fun u hu => h u (by simp [hu])) _ _

/-- fit_plane_normal reads only positions of loop members. -/
theorem fit_plane_normal_congr (fsqrt : ℚ → ℚ) (obj obj2 : OBJ) (polygon : List Vertex)
    (hne : polygon ≠ []) (h : ∀ v ∈ polygon, obj.pos v = obj2.pos v) :
    fit_plane_normal fsqrt obj polygon = fit_plane_normal fsqrt obj2 polygon := by
  unfold fit_plane_normal
  rw [newellGo_congr obj obj2 polygon h, h _ (getLastD_mem hne)]

/-- Fold congruence for functions that agree on list members. -/
theorem foldl_congr_mem {σ α : Type} (f g : σ → α → σ) :
    ∀ (l : List α) (init : σ), (∀ s a, a ∈ l → f s a = g s a) →
      l.foldl f init = l.foldl g init := by
  intro l
  induction l with
  | nil => intro init _; rfl
  | cons x xs ih =>
    intro init h
    simp only [List.foldl_cons]
    rw [h init x (by simp)]
    exact ih _ fun s a ha => h s a (by simp [ha])

/-- The leftmost-vertex search reads only positions of polygon members. -/
theorem leftmostIndex_congr (obj obj2 : OBJ) (polygon : List Vertex) (tf : Mat3)
    (hne : polygon ≠ []) (h : ∀ v ∈ polygon, obj.pos v = obj2.pos v) :
    leftmostIndex polygon obj tf = leftmostIndex polygon obj2 tf := by
  unfold leftmostIndex
  rw [point_congr obj obj2 _ tf (h _ (by
    cases polygon with
    | nil => exact absurd rfl hne
    | cons a l => simp))]
  refine congrArg Prod.fst (foldl_congr_mem _ _ polygon.enum _ ?_)
  rintro s ⟨i, v⟩ ha
  obtain ⟨hi, hv⟩ := List.mem_enum ha
  have hvm : v ∈ polygon := hv ▸ List.getElem_mem hi
  dsimp only
  rw [point_congr obj obj2 v tf (h v hvm)]

/-- Bounds for the wrapped neighbour indices. -/
theorem candPrev_lt (maxIndex ear n : ℕ) (hmax : maxIndex < n) (hear : ear < n) :
    candPrev maxIndex ear < n := by
  unfold candPrev
  split <;> omega

/-- Bound for the wrapped successor index. -/
theorem candNext_lt (maxIndex ear n : ℕ) (hmax : maxIndex < n) (hn : 0 < n) :
    candNext maxIndex ear < n := by
  unfold candNext
  split <;> omega

/-- The candidate triangle reads only positions of polygon members. -/
theorem candTri_congr (obj obj2 : OBJ) (polygon : List Vertex) (tf : Mat3)
    (maxIndex ear : ℕ) (hmax : maxIndex < polygon.length) (hear : ear < polygon.length)
    (h : ∀ v ∈ polygon, obj.pos v = obj2.pos v) :
    candTri obj tf polygon maxIndex ear = candTri obj2 tf polygon maxIndex ear := by
  unfold candTri
  rw [point_congr obj obj2 _ tf (h _ (getD_mem (candPrev_lt maxIndex ear _ hmax hear))),
    point_congr obj obj2 _ tf (h _ (getD_mem hear)),
    point_congr obj obj2 _ tf (h _ (getD_mem (candNext_lt maxIndex ear _ hmax (by omega))))]

/-- Any-congruence for predicates that agree on list members. -/
theorem any_congr_mem {α : Type} (f g : α → Bool) :
    ∀ (l : List α), (∀ a ∈ l, f a = g a) → l.any f = l.any g := by
  intro l
  induction l with
  | nil => intro _; rfl
  | cons x xs ih =>
    intro h
    simp only [List.any_cons]
    rw [h x (by simp), ih fun a ha => h a (by simp [ha])]

/-- The scan pass reads only positions of polygon members. -/
theorem findEarGo_congr (obj obj2 : OBJ) (tf : Mat3) (pw : Winding) (polygon : List Vertex)
    (maxIndex : ℕ) (hmax : maxIndex < polygon.length)
    (h : ∀ v ∈ polygon, obj.pos v = obj2.pos v) :
    ∀ (fuel ear : ℕ) (reflex : List ℕ),
      ear + fuel ≤ maxIndex → (∀ j ∈ reflex, j < polygon.length) →
      findEarGo obj tf pw polygon maxIndex ear fuel reflex
        = findEarGo obj2 tf pw polygon maxIndex ear fuel reflex := by
  intro fuel
  induction fuel with
  | zero => intro ear reflex _ _; rfl
  | succ n ih =>
    intro ear reflex hle hreflex
    have hear : ear < polygon.length := by omega
    simp only [findEarGo]
    rw [candTri_congr obj obj2 polygon tf maxIndex ear hmax hear h]
    rw [any_congr_mem _ _ reflex (by
      intro j hj
      rw [point_congr obj obj2 _ tf (h _ (getD_mem (hreflex j hj)))])]
    rw [List.map_congr_left (l := polygon.drop (ear + 1)) (by
      intro v hv
      exact point_congr obj obj2 v tf (h v (List.mem_of_mem_drop hv)))]
    split
    · exact ih (ear + 1) (reflex ++ [ear]) (by omega) (by
        intro j hj
        rcases List.mem_append.mp hj with hj | hj
        · exact hreflex j hj
        · simp at hj
          omega)
    · split
      · exact ih (ear + 1) reflex (by omega) hreflex
      · split
        · exact ih (ear + 1) reflex (by omega) hreflex
        · rfl

/-- A full scan pass reads only positions of polygon members. -/
theorem findEar_congr (obj obj2 : OBJ) (tf : Mat3) (pw : Winding) (polygon : List Vertex)
    (hne : 1 ≤ polygon.length) (h : ∀ v ∈ polygon, obj.pos v = obj2.pos v) :
    findEar obj tf pw polygon = findEar obj2 tf pw polygon := by
  unfold findEar
  exact findEarGo_congr obj obj2 tf pw polygon (polygon.length - 1) (by omega) h
    (polygon.length - 1) 0 [] (by omega) (by simp)

/-- polygon_winding reads only positions of polygon members. -/
theorem polygon_winding_congr (obj obj2 : OBJ) (polygon : List Vertex) (tf : Mat3)
    (hne : polygon ≠ []) (h : ∀ v ∈ polygon, obj.pos v = obj2.pos v) :
    polygon_winding polygon obj tf = polygon_winding polygon obj2 tf := by
  unfold polygon_winding
  rw [leftmostIndex_congr obj obj2 polygon tf hne h]
  rw [candTri_congr obj obj2 polygon tf _ _
    (by have := List.length_pos.mpr hne; omega)
    (leftmostIndex_lt polygon obj2 tf hne) h]

/-- The clip loop reads only positions of members of its working
polygon, which always stays a sublist of the initial one. -/
theorem earClipGo_congr (obj obj2 : OBJ) (tf : Mat3) (pw : Winding) :
    ∀ (fuel : ℕ) (polygon : List Vertex),
      (∀ v ∈ polygon, obj.pos v = obj2.pos v) →
      earClipGo obj tf pw fuel polygon = earClipGo obj2 tf pw fuel polygon := by
  intro fuel
  induction fuel with
  | zero => intro polygon _; rfl
  | succ n ih =>
    intro polygon h
    simp only [earClipGo]
    split
    · rfl
    · rename_i hge
      rw [findEar_congr obj obj2 tf pw polygon (by omega) h]
      split
      · rfl
      · rw [ih (polygon.eraseIdx _) fun v hv => h v (List.mem_of_mem_eraseIdx hv)]

/-- triangulate reads only the positions of the polygon's own vertex
references: meshes that agree there triangulate identically. -/
theorem triangulate_congr (fsqrt : ℚ → ℚ) (polygon : List Vertex) (obj obj2 : OBJ)
    (h : ∀ v ∈ polygon, obj.pos v = obj2.pos v) :
    triangulate fsqrt polygon obj = triangulate fsqrt polygon obj2 := by
  unfold triangulate
  split
  · rfl
  · split
    · rfl
    · rename_i h2 h3
      have hne : polygon ≠ [] := by
        intro hnil
        rw [hnil] at h2
        simp at h2
      have htf : flattenTf fsqrt obj polygon = flattenTf fsqrt obj2 polygon := by
        unfold flattenTf
        rw [fit_plane_normal_congr fsqrt obj obj2 polygon hne h]
      show earClipGo obj (flattenTf fsqrt obj polygon)
          (polygon_winding polygon obj (flattenTf fsqrt obj polygon)) polygon.length polygon
        = earClipGo obj2 (flattenTf fsqrt obj2 polygon)
          (polygon_winding polygon obj2 (flattenTf fsqrt obj2 polygon)) polygon.length polygon
      rw [htf, polygon_winding_congr obj obj2 polygon _ hne h,
        earClipGo_congr obj obj2 _ _ polygon.length polygon h]

/-- The TooFewVertices case of triangulate. -/
theorem triangulate_err (fsqrt : ℚ → ℚ) (polygon : List Vertex) (obj : OBJ)
    (h : polygon.length ≤ 2) :
    triangulate fsqrt polygon obj = .error .TooFewVertices := by
  unfold triangulate
  rw [if_pos h]

/-- The 3-vertex entry shortcut of triangulate. -/
theorem triangulate_three (fsqrt : ℚ → ℚ) (polygon : List Vertex) (obj : OBJ)
    (h : polygon.length = 3) :
    triangulate fsqrt polygon obj
      = .ok [(polygon.getD 0 defaultVertex, polygon.getD 1 defaultVertex,
              polygon.getD 2 defaultVertex)] := by
  unfold triangulate
  rw [if_neg (by omega), if_pos h]

/-- The main-loop case of triangulate. -/
theorem triangulate_loop (fsqrt : ℚ → ℚ) (polygon : List Vertex) (obj : OBJ)
    (h : 4 ≤ polygon.length) :
    triangulate fsqrt polygon obj
      = earClipGo obj (flattenTf fsqrt obj polygon)
          (polygon_winding polygon obj (flattenTf fsqrt obj polygon))
          polygon.length polygon := by
  unfold triangulate
  rw [if_neg (by omega), if_neg (by omega)]

/-- The coplanar unit-square mesh of the specification's concrete
scenario (the rotation-sweep test fixture of earclipping.rs at angle 0). -/
def squareObj : OBJ :=
  { positions := [{ x := -1, y := 0, z := 1 }, { x := 1, y := 0, z := 1 },
                  { x := -1, y := 0, z := -1 }, { x := 1, y := 0, z := -1 }]
    normals := [], uvs := [], objects := [] }

/-- The quad face of the concrete scenario, [[1,1,1],[2,2,1],[4,3,1],[3,4,1]]. -/
def squarePoly : List Vertex := [(1, 1, 1), (2, 2, 1), (4, 3, 1), (3, 4, 1)]

/-- A group holding the valid quad among faces with fewer than 3
vertices. -/
def quadGroup : Group :=
  { name := "default"
    faces := [.NGon [], .Quad (1, 1, 1) (2, 2, 1) (4, 3, 1) (3, 4, 1), .NGon [(9, 9, 9)]]
    material := none }

/-- A group holding only faces with fewer than 3 vertices. -/
def degenGroup : Group :=
  { name := "default"
    faces := [.NGon [], .NGon [(1, 1, 1)], .NGon [(1, 1, 1), (2, 2, 1)]]
    material := none }

/-- A planar self-intersecting pentagon on which every scan candidate is
rejected: candidate 0 contains vertex 4 in its triangle, candidates
1 - 3 are reflex, and index 4 is never examined. -/
def noEarObj : OBJ :=
  { positions := [{ x := 0, y := 0, z := 0 }, { x := 4, y := 0, z := -1 },
                  { x := 3, y := 0, z := -3 }, { x := 2, y := 0, z := 0 },
                  { x := 4, y := 0, z := 1 }]
    normals := [], uvs := [], objects := [] }

/-- The vertex loop over noEarObj. -/
def noEarPoly : List Vertex := [(1, 0, 0), (2, 0, 0), (3, 0, 0), (4, 0, 0), (5, 0, 0)]

/-- A simple pentagon with one concave-adjacent collinearity on which
the engine's restart-at-0 scan and the specification's resume-after-ear
scan accept different ears from the second pass on. -/
def divergeObj : OBJ :=
  { positions := [{ x := 0, y := 0, z := 0 }, { x := 0, y := 0, z := 4 },
                  { x := 2, y := 0, z := 2 }, { x := 4, y := 0, z := 4 },
                  { x := 4, y := 0, z := 0 }]
    normals := [], uvs := [], objects := [] }

/-- The vertex loop over divergeObj. -/
def divergePoly : List Vertex := [(1, 0, 0), (2, 0, 0), (3, 0, 0), (4, 0, 0), (5, 0, 0)]

/-- A 3-position mesh for exercising a FaceTriangulator on a triangle
face. -/
def triObj : OBJ :=
  { positions := [{ x := 0, y := 0, z := 0 }, { x := 0, y := 0, z := 2 },
                  { x := 2, y := 0, z := 0 }]
    normals := [], uvs := [], objects := [] }

/-- C1: whenever the batch function triangulate returns Ok on an
n-vertex polygon, the returned list holds exactly n - 2 triangles:
every successful loop pass emits one triangle and removes exactly one
vertex from the working polygon until fewer than 3 remain. -/
theorem c1_triangulate_emits_n_minus_2 (fsqrt : ℚ → ℚ) (polygon : List Vertex) (obj : OBJ)
    (ts : Triangulation) (h : triangulate fsqrt polygon obj = .ok ts) :
    ts.length = polygon.length - 2 := by
  by_cases h2 : polygon.length ≤ 2
  · rw [triangulate_err fsqrt polygon obj h2] at h
    exact absurd h (by simp)
  · by_cases h3 : polygon.length = 3
    · rw [triangulate_three fsqrt polygon obj h3] at h
      simp only [Except.ok.injEq] at h
      subst h
      simp [h3]
    · rw [triangulate_loop fsqrt polygon obj (by omega)] at h
      exact earClipGo_ok_length obj _ _ polygon.length polygon ts (le_refl _) h

/-- C1 witness: the specification's coplanar square quad triangulates
successfully into exactly 4 - 2 = 2 triangles. -/
theorem c1_witness :
    triangulate oneSqrt squarePoly squareObj
        = .ok [((3, 4, 1), (1, 1, 1), (2, 2, 1)), ((3, 4, 1), (2, 2, 1), (4, 3, 1))]
    ∧ ([((3, 4, 1), (1, 1, 1), (2, 2, 1)), ((3, 4, 1), (2, 2, 1), (4, 3, 1))]
        : Triangulation).length = squarePoly.length - 2 :=
  ⟨rfl, c1_triangulate_emits_n_minus_2 oneSqrt squarePoly squareObj _ rfl⟩

/-- C2: every triangle emitted by a successful run of triangulate
projects, under the face's fixed flattening matrix, to the
polygon_winding orientation fixed before clipping began - including the
3-vertex entry shortcut, by cyclic invariance of the signed area - and
every triangle emitted by FaceTriangulator::next projects to the
state's polygon_winding flag. -/
theorem c2_winding_preserved (fsqrt : ℚ → ℚ) (polygon : List Vertex) (obj : OBJ)
    (ts : Triangulation) (h : triangulate fsqrt polygon obj = .ok ts) :
    (∀ t ∈ ts, (projTriangle obj (flattenTf fsqrt obj polygon) t).winding
        = polygon_winding polygon obj (flattenTf fsqrt obj polygon))
    ∧ ∀ (s : FaceTriangulator) (t : Tri) (s1 : FaceTriangulator),
        s.next = (some t, s1) →
        (projTriangle s.obj s.tf_flatten t).winding = s.polygon_winding := by
  refine ⟨?_, fun s t s1 hn => faceNext_some_winding s t s1 hn⟩
  intro t ht
  by_cases h2 : polygon.length ≤ 2
  · rw [triangulate_err fsqrt polygon obj h2] at h
    exact absurd h (by simp)
  · by_cases h3 : polygon.length = 3
    · rw [triangulate_three fsqrt polygon obj h3] at h
      simp only [Except.ok.injEq] at h
      subst h
      simp only [List.mem_singleton] at ht
      subst ht
      obtain ⟨a, b, c, rfl⟩ := List.length_eq_three.mp h3
      rw [polygon_winding_three]
      exact (winding_rot (obj.point a (flattenTf fsqrt obj [a, b, c]))
        (obj.point b (flattenTf fsqrt obj [a, b, c]))
        (obj.point c (flattenTf fsqrt obj [a, b, c]))).symm
    · rw [triangulate_loop fsqrt polygon obj (by omega)] at h
      exact earClipGo_ok_winding obj _ _ polygon.length polygon ts h t ht

/-- C2 witness: the first triangle of the square run projects to the
square's fixed winding. -/
theorem c2_witness :
    (projTriangle squareObj (flattenTf oneSqrt squareObj squarePoly)
        ((3, 4, 1), (1, 1, 1), (2, 2, 1))).winding
      = polygon_winding squarePoly squareObj (flattenTf oneSqrt squareObj squarePoly) :=
  (c2_winding_preserved oneSqrt squarePoly squareObj
    [((3, 4, 1), (1, 1, 1), (2, 2, 1)), ((3, 4, 1), (2, 2, 1), (4, 3, 1))] rfl).1 _ (by simp)

/-- C3 counterexample: on a concrete pentagon the engine (which
restarts every scan at index 0) and the specification's scan (which
resumes after the previously accepted ear and wraps) emit different
triangle lists, so the scan does not start after the previously
accepted ear index. -/
theorem c3_counterexample :
    triangulate oneSqrt divergePoly divergeObj
        = .ok [((1, 0, 0), (2, 0, 0), (3, 0, 0)), ((5, 0, 0), (1, 0, 0), (3, 0, 0)),
               ((5, 0, 0), (3, 0, 0), (4, 0, 0))]
    ∧ triangulateSpec oneSqrt divergePoly divergeObj
        = .ok [((1, 0, 0), (2, 0, 0), (3, 0, 0)), ((3, 0, 0), (4, 0, 0), (5, 0, 0)),
               ((3, 0, 0), (5, 0, 0), (1, 0, 0))]
    ∧ triangulate oneSqrt divergePoly divergeObj
        ≠ triangulateSpec oneSqrt divergePoly divergeObj := by
  have h1 : triangulate oneSqrt divergePoly divergeObj
      = .ok [((1, 0, 0), (2, 0, 0), (3, 0, 0)), ((5, 0, 0), (1, 0, 0), (3, 0, 0)),
             ((5, 0, 0), (3, 0, 0), (4, 0, 0))] := rfl
  have h2 : triangulateSpec oneSqrt divergePoly divergeObj
      = .ok [((1, 0, 0), (2, 0, 0), (3, 0, 0)), ((3, 0, 0), (4, 0, 0), (5, 0, 0)),
             ((3, 0, 0), (5, 0, 0), (1, 0, 0))] := rfl
  refine ⟨h1, h2, ?_⟩
  rw [h1, h2]
  simp

/-- C3 amended: every scan pass starts at candidate index 0 (the
usize::MAX cursor wraps to 0 on the first increment) and climbs without
wrapping: an accepted ear is the first index from 0 upward that none of
the three rejection tests rejects, the reflex list holds exactly the
winding failures below it, and no index at or beyond length - 1 is ever
accepted. -/
theorem c3_amended (obj : OBJ) (tf : Mat3) (pw : Winding) (polygon : List Vertex)
    (e : ℕ) (r : List ℕ) (h : findEar obj tf pw polygon = (some e, r)) :
    (∀ j < e, earRejected obj tf pw polygon (polygon.length - 1)
        (reflexUpTo obj tf pw polygon (polygon.length - 1) j) j = true)
    ∧ earRejected obj tf pw polygon (polygon.length - 1)
        (reflexUpTo obj tf pw polygon (polygon.length - 1) e) e = false
    ∧ r = reflexUpTo obj tf pw polygon (polygon.length - 1) e
    ∧ e < polygon.length - 1 := by
  obtain ⟨h1, h2, h3⟩ := findEar_char obj tf pw polygon e r h
  exact ⟨h1, h2, h3, findEar_some_lt obj tf pw polygon e r h⟩

/-- C3 amended witness: the square's first pass accepts ear 0, which is
rejected by no test and lies below length - 1. -/
theorem c3_amended_witness :
    earRejected squareObj (flattenTf oneSqrt squareObj squarePoly)
        (polygon_winding squarePoly squareObj (flattenTf oneSqrt squareObj squarePoly))
        squarePoly (squarePoly.length - 1)
        (reflexUpTo squareObj (flattenTf oneSqrt squareObj squarePoly)
          (polygon_winding squarePoly squareObj (flattenTf oneSqrt squareObj squarePoly))
          squarePoly (squarePoly.length - 1) 0) 0 = false
    ∧ (0 : ℕ) < squarePoly.length - 1 :=
  ⟨(c3_amended squareObj (flattenTf oneSqrt squareObj squarePoly)
      (polygon_winding squarePoly squareObj (flattenTf oneSqrt squareObj squarePoly))
      squarePoly 0 [] rfl).2.1,
   (c3_amended squareObj (flattenTf oneSqrt squareObj squarePoly)
      (polygon_winding squarePoly squareObj (flattenTf oneSqrt squareObj squarePoly))
      squarePoly 0 [] rfl).2.2.2⟩

/-- C4 counterexample: for the unit normal anti-parallel to the
reference axis the divisor 1 + cos of unit_align's k computation is
exactly 0, so the unguarded division 1 / (1 + cos) is a division by
zero (in f32 it produces inf and then NaN matrix entries; the rational
model maps the division to 0, giving the matrix below). -/
theorem c4_counterexample :
    Vec3.dot { x := 0, y := -1, z := 0 } Vec3.UNIT_Y = -1
    ∧ unitAlignDivisor { x := 0, y := -1, z := 0 } Vec3.UNIT_Y = 0
    ∧ Vec3.unit_align { x := 0, y := -1, z := 0 } Vec3.UNIT_Y
        = { e0 := -1, e1 := 0, e2 := 0, e3 := 0, e4 := -1, e5 := 0,
            e6 := 0, e7 := 0, e8 := -1 } :=
  ⟨by decide, by decide, by decide⟩

/-- C4 amended: unit_align performs no special-casing: for any pair of
vectors with dot product -1 the divisor 1 + cos it divides by is 0, and
(in the rational model, where division by zero yields 0) all the
Rodrigues k-terms vanish from the resulting matrix. -/
theorem c4_amended (u1 u2 : Vec3) (h : u1.dot u2 = -1) :
    unitAlignDivisor u1 u2 = 0
    ∧ Vec3.unit_align u1 u2
        = { e0 := -1, e1 := -(u1.cross u2).z, e2 := (u1.cross u2).y,
            e3 := (u1.cross u2).z, e4 := -1, e5 := -(u1.cross u2).x,
            e6 := -(u1.cross u2).y, e7 := (u1.cross u2).x, e8 := -1 } := by
  constructor
  · unfold unitAlignDivisor
    rw [h]
    ring
  · simp only [Vec3.unit_align, h, Mat3.mk.injEq]
    norm_num

/-- C4 amended witness. -/
theorem c4_amended_witness :
    unitAlignDivisor { x := 0, y := -1, z := 0 } Vec3.UNIT_Y = 0 :=
  (c4_amended { x := 0, y := -1, z := 0 } Vec3.UNIT_Y (by decide)).1

/-- C5: Vec3::cross does not compute the mathematical cross product:
its y component multiplies other.z where the formula has other.x, so at
a = (0,0,1), b = (1,0,0) the code yields (0,0,0) while the cross
product is (0,1,0) - the code contradicts its own doc comment and the
specification's Rodrigues description. -/
theorem c5_cross_bug :
    Vec3.cross { x := 0, y := 0, z := 1 } { x := 1, y := 0, z := 0 }
        = { x := 0, y := 0, z := 0 }
    ∧ crossSpec { x := 0, y := 0, z := 1 } { x := 1, y := 0, z := 0 }
        = { x := 0, y := 1, z := 0 }
    ∧ Vec3.cross { x := 0, y := 0, z := 1 } { x := 1, y := 0, z := 0 }
        ≠ crossSpec { x := 0, y := 0, z := 1 } { x := 1, y := 0, z := 0 } :=
  ⟨by decide, by decide, by decide⟩

/-- C6 counterexample: a FaceTriangulator built from a 3-vertex face
emits the cyclic rotation (v2, v0, v1), not the unchanged triangle
(v0, v1, v2). -/
theorem c6_counterexample :
    (FaceTriangulator.new oneSqrt triObj (.Tri (1, 1, 1) (2, 2, 1) (3, 4, 2))).map
        (fun s => s.next.1)
      = .ok (some ((3, 4, 2), (1, 1, 1), (2, 2, 1)))
    ∧ (((3, 4, 2), (1, 1, 1), (2, 2, 1)) : Tri) ≠ ((1, 1, 1), (2, 2, 1), (3, 4, 2)) :=
  ⟨rfl, by decide⟩

/-- C6 amended: the batch function triangulate returns the single
triangle (v0, v1, v2) unchanged for every 3-vertex polygon, without
reading the mesh at all (no plane fitting, no projection, no scan); a
FaceTriangulator built from a 3-vertex face does run the scan and emits
exactly one triangle, the cyclic rotation (v2, v0, v1), then ends. -/
theorem c6_amended (fsqrt : ℚ → ℚ) (obj obj2 : OBJ) (v0 v1 v2 : Vertex) :
    triangulate fsqrt [v0, v1, v2] obj = .ok [(v0, v1, v2)]
    ∧ triangulate fsqrt [v0, v1, v2] obj = triangulate fsqrt [v0, v1, v2] obj2
    ∧ ∀ s, FaceTriangulator.new fsqrt obj (.Tri v0 v1 v2) = .ok s →
        s.next.1 = some (v2, v0, v1) ∧ (s.next.2).next.1 = none := by
  have e1 : triangulate fsqrt [v0, v1, v2] obj = .ok [(v0, v1, v2)] := rfl
  have e2 : triangulate fsqrt [v0, v1, v2] obj2 = .ok [(v0, v1, v2)] := rfl
  refine ⟨e1, e1.trans e2.symm, ?_⟩
  intro s hs
  obtain ⟨h1, h2⟩ := faceNext_three fsqrt obj v0 v1 v2 s hs
  constructor
  · rw [h1]
  · rw [h2]

/-- The face triangulator state built from the triangle face over
triObj, as from_obj_polygon constructs it. -/
def triState : FaceTriangulator :=
  { polygon := [(1, 1, 1), (2, 2, 1), (3, 4, 2)]
    obj := triObj
    polygon_winding := polygon_winding [(1, 1, 1), (2, 2, 1), (3, 4, 2)] triObj
      (flattenTf oneSqrt triObj [(1, 1, 1), (2, 2, 1), (3, 4, 2)])
    reflex_indices := []
    tf_flatten := flattenTf oneSqrt triObj [(1, 1, 1), (2, 2, 1), (3, 4, 2)] }

/-- C6 amended witness. -/
theorem c6_amended_witness :
    triangulate oneSqrt [(1, 1, 1), (2, 2, 1), (3, 4, 2)] triObj
        = .ok [((1, 1, 1), (2, 2, 1), (3, 4, 2))]
    ∧ triState.next.1 = some ((3, 4, 2), (1, 1, 1), (2, 2, 1))
    ∧ (triState.next.2).next.1 = none :=
  have h := c6_amended oneSqrt triObj triObj (1, 1, 1) (2, 2, 1) (3, 4, 2)
  ⟨h.1, (h.2.2 triState rfl).1, (h.2.2 triState rfl).2⟩

/-- C7: an ear-search pass examines at most polygon length - 1
candidates (an accepted ear always lies strictly below max_index); when
a pass rejects them all, FaceTriangulator::next clears the working
polygon and returns None - after which every further pull returns
None - and the batch function triangulate reports Err(NoEarFound);
the model is total, so no case panics. -/
theorem c7_no_ear_fails_cleanly :
    (∀ (obj : OBJ) (tf : Mat3) (pw : Winding) (polygon : List Vertex) (e : ℕ) (r : List ℕ),
        findEar obj tf pw polygon = (some e, r) → e < polygon.length - 1)
    ∧ (∀ (s : FaceTriangulator) (r : List ℕ), 3 ≤ s.polygon.length →
        findEar s.obj s.tf_flatten s.polygon_winding s.polygon = (none, r) →
          s.next = (none, { s with polygon := [], reflex_indices := r })
          ∧ ((s.next.2).next).1 = none)
    ∧ ∀ (fsqrt : ℚ → ℚ) (polygon : List Vertex) (obj : OBJ) (r : List ℕ),
        4 ≤ polygon.length →
        findEar obj (flattenTf fsqrt obj polygon)
            (polygon_winding polygon obj (flattenTf fsqrt obj polygon)) polygon = (none, r) →
        triangulate fsqrt polygon obj = .error .NoEarFound := by
  refine ⟨findEar_some_lt, ?_, fun fsqrt polygon obj r h4 hn =>
    triangulate_scan_none fsqrt polygon obj r h4 hn⟩
  intro s r h3 hn
  have h1 := faceNext_scan_none s r h3 hn
  refine ⟨h1, ?_⟩
  rw [h1, faceNext_short _ (by simp)]

/-- The face triangulator state over the no-ear pentagon, as
from_obj_polygon constructs it. -/
def noEarState : FaceTriangulator :=
  { polygon := noEarPoly
    obj := noEarObj
    polygon_winding := polygon_winding noEarPoly noEarObj (flattenTf oneSqrt noEarObj noEarPoly)
    reflex_indices := []
    tf_flatten := flattenTf oneSqrt noEarObj noEarPoly }

/-- C7 witness: the self-intersecting pentagon defeats every candidate,
the iterator clears its polygon and stops, and the batch function
reports NoEarFound. -/
theorem c7_witness :
    noEarState.next = (none, { noEarState with polygon := [], reflex_indices := [1, 2, 3] })
    ∧ triangulate oneSqrt noEarPoly noEarObj = .error .NoEarFound :=
  have hn : findEar noEarState.obj noEarState.tf_flatten noEarState.polygon_winding
      noEarState.polygon = (none, [1, 2, 3]) := by rfl
  ⟨(c7_no_ear_fails_cleanly.2.1 noEarState [1, 2, 3] (by decide) hn).1,
   c7_no_ear_fails_cleanly.2.2 oneSqrt noEarPoly noEarObj [1, 2, 3] (by decide) hn⟩

/-- C8: a face or polygon with fewer than 3 vertices makes
FaceTriangulator::new and triangulate fail with TooFewVertices (the
model is total, so nothing panics), this is the only way construction
fails, and with 3 or more vertices construction always succeeds
(triangulate never reports TooFewVertices there). -/
theorem c8_too_few_vertices (fsqrt : ℚ → ℚ) (obj : OBJ) :
    (∀ face : Face,
        (face.toVec.length < 3 →
          FaceTriangulator.new fsqrt obj face = .error .TooFewVertices)
        ∧ (3 ≤ face.toVec.length → ∃ s, FaceTriangulator.new fsqrt obj face = .ok s))
    ∧ ∀ polygon : List Vertex,
        (polygon.length < 3 → triangulate fsqrt polygon obj = .error .TooFewVertices)
        ∧ (3 ≤ polygon.length → triangulate fsqrt polygon obj ≠ .error .TooFewVertices) := by
  constructor
  · intro face
    exact ⟨fun h => from_obj_polygon_err fsqrt obj face.toVec h,
           fun h => ⟨_, from_obj_polygon_ok fsqrt obj face.toVec h⟩⟩
  · intro polygon
    constructor
    · intro h
      exact triangulate_err fsqrt polygon obj (by omega)
    · intro h3
      by_cases h4 : polygon.length = 3
      · rw [triangulate_three fsqrt polygon obj h4]
        simp
      · rw [triangulate_loop fsqrt polygon obj (by omega)]
        exact earClipGo_ne_tooFew obj _ _ polygon.length polygon

/-- C8 witness: a 2-vertex face and a 1-vertex polygon fail with
TooFewVertices, and the 4-vertex square does not. -/
theorem c8_witness :
    FaceTriangulator.new oneSqrt squareObj (.NGon [(1, 1, 1), (2, 2, 1)])
        = .error .TooFewVertices
    ∧ triangulate oneSqrt [(1, 1, 1)] squareObj = .error .TooFewVertices
    ∧ triangulate oneSqrt squarePoly squareObj ≠ .error .TooFewVertices :=
  ⟨((c8_too_few_vertices oneSqrt squareObj).1 (.NGon [(1, 1, 1), (2, 2, 1)])).1 (by decide),
   ((c8_too_few_vertices oneSqrt squareObj).2 [(1, 1, 1)]).1 (by decide),
   ((c8_too_few_vertices oneSqrt squareObj).2 squarePoly).2 (by decide)⟩

/-- C9: GroupTriangulator::new fails with NoValidFacesFound exactly
when every face of the group has fewer than 3 vertices; otherwise it
starts at the first startable face, skipping every earlier one; and the
concrete group holding one valid quad among too-short faces yields
exactly that quad's 2 triangles. -/
theorem c9_group_triangulator (fsqrt : ℚ → ℚ) (obj : OBJ) (group : Group) :
    (GroupTriangulator.new fsqrt obj group = .error .NoValidFacesFound
      ↔ ∀ f ∈ group.faces, f.toVec.length < 3)
    ∧ (∀ s, GroupTriangulator.new fsqrt obj group = .ok s →
        s.face_index < group.faces.length
        ∧ 3 ≤ (group.faces.getD s.face_index (.NGon [])).toVec.length
        ∧ ∀ k < s.face_index, (group.faces.getD k (.NGon [])).toVec.length < 3)
    ∧ (GroupTriangulator.new oneSqrt squareObj quadGroup).map (groupCollect oneSqrt 10)
        = .ok [((3, 4, 1), (1, 1, 1), (2, 2, 1)), ((3, 4, 1), (2, 2, 1), (4, 3, 1))] :=
  ⟨groupNew_err_iff fsqrt obj group, fun s h => groupNew_ok fsqrt obj group s h, rfl⟩

/-- C9 witness: a group of only too-short faces fails with
NoValidFacesFound. -/
theorem c9_witness :
    GroupTriangulator.new oneSqrt squareObj degenGroup = .error .NoValidFacesFound :=
  (c9_group_triangulator oneSqrt squareObj degenGroup).1.mpr (by decide)

/-- C10: with every position index i between 1 and positions.len() the
index i - 1 that OBJ::pos computes is in bounds; index 0 wraps in
unsigned arithmetic to 2^64 - 1 (so the in-bounds guarantee needs
i >= 1); and triangulate reads the mesh only through the positions of
the polygon's own vertex references - never the normal or texcoord
arrays. -/
theorem c10_positions_only (fsqrt : ℚ → ℚ) :
    (∀ (o : OBJ) (v : Vertex), 1 ≤ v.1 → v.1 ≤ o.positions.length →
        o.positions.length ≤ 2 ^ 64 →
        wrapSub1 v.1 = v.1 - 1 ∧ wrapSub1 v.1 < o.positions.length)
    ∧ wrapSub1 0 = 2 ^ 64 - 1
    ∧ ∀ (polygon : List Vertex) (obj obj2 : OBJ),
        (∀ v ∈ polygon, obj.pos v = obj2.pos v) →
        triangulate fsqrt polygon obj = triangulate fsqrt polygon obj2 := by
  have hp : (2 : ℕ) ^ 64 = 18446744073709551616 := by norm_num
  refine ⟨?_, ?_, fun polygon obj obj2 h => triangulate_congr fsqrt polygon obj obj2 h⟩
  · intro o v h1 h2 h3
    rw [hp] at h3
    unfold wrapSub1
    rw [hp]
    omega
  · unfold wrapSub1
    rw [hp]

/-- C10 witness: position index 1 resolves in bounds on the square
mesh, and triangulate ignores a changed normals array. -/
theorem c10_witness :
    wrapSub1 1 = 0
    ∧ wrapSub1 1 < squareObj.positions.length
    ∧ triangulate oneSqrt squarePoly squareObj
        = triangulate oneSqrt squarePoly
            { squareObj with normals := [{ x := 9, y := 9, z := 9 }] } :=
  have h := (c10_positions_only oneSqrt).1 squareObj (1, 1, 1) (by decide) (by decide)
    (by decide)
  ⟨h.1, h.2, (c10_positions_only oneSqrt).2.2 squarePoly squareObj
    { squareObj with normals := [{ x := 9, y := 9, z := 9 }] } (fun v hv => rfl)⟩

end Mol
